import Mathlib

/-!
Formatting utilities of `pkg/util/util.go`.

A shallow embedding of the helpers of `pkg/util/util.go` together with the parts of the Go
runtime and standard library they rely on (slices with a shared backing array, maps,
`strings.Join`, `time.Duration`, the `%d` verbs of `fmt`).

Go strings are modelled as Lean `String`s, Go `int`/`int64` as `Int` with explicit
wrap-around where arithmetic can overflow.
-/

set_option autoImplicit false

namespace Util

/-! ## Go slices -/

/-- A Go `[]string` seen from its first element: `arr` is the backing array from the slice's
offset on (so `cap = arr.length`) and `len` the length of the slice. -/
structure Slice where
  arr : List String
  len : Nat
  len_le : len ≤ arr.length

/-- The builtin `cap(s)`. -/
def Slice.cap (s : Slice) : Nat := s.arr.length

/-- The elements `s[0], ..., s[len(s)-1]`. -/
def Slice.elems (s : Slice) : List String := s.arr.take s.len

/-- A slice that spans its whole backing array (`len = cap`), as made by a slice literal. -/
def Slice.ofList (l : List String) : Slice := ⟨l, l.length, le_refl _⟩

/-- The slice expression `s[:high]`: it needs `0 ≤ high ≤ cap(s)` and panics (`none`)
otherwise; the result shares the backing array. -/
def Slice.sliceTo (s : Slice) (high : Int) : Option Slice :=
  if h : 0 ≤ high ∧ high.toNat ≤ s.arr.length then some ⟨s.arr, high.toNat, h.2⟩ else none

/-- The builtin `append(s, x)`. With spare capacity the element is written in place into the
shared backing array; otherwise a new array is allocated and the old one is left alone.
Returns the new slice and the old backing array as it is after the call. (The capacity of a
newly allocated array is modelled as `len + 1`: the extra room is never observed here.) -/
def Slice.append (s : Slice) (x : String) : Slice × List String :=
  if h : s.len < s.arr.length then
    (⟨s.arr.set s.len x, s.len + 1, by simpa using h⟩, s.arr.set s.len x)
  else
    (Slice.ofList (s.elems ++ [x]), s.arr)

/-- Outcome of a call that may write to its caller's slice: the returned string (`none` when
the call panics) and the caller's backing array after the call. -/
structure CallResult where
  ret : Option String
  arr : List String
deriving DecidableEq, Repr

/-! ## Go maps -/

/-- A Go `map[string]string`: its key/value pairs, keys pairwise distinct. The order of
`entries` stands for the order in which a `range` loop visits them. -/
structure GoMap where
  entries : List (String × String)
  nodup : (entries.map Prod.fst).Nodup

/-- The builtin `len(m)`. -/
def GoMap.len (m : GoMap) : Nat := m.entries.length

/-- The keys, in iteration order. -/
def GoMap.keys (m : GoMap) : List String := m.entries.map Prod.fst

/-- The value stored under `k`, if any. -/
def GoMap.get? (m : GoMap) (k : String) : Option String :=
  (m.entries.find? (fun e => decide (e.1 = k))).map Prod.snd

/-- The index expression `m[k]`: the stored value, or the zero value `""`. -/
def GoMap.index (m : GoMap) (k : String) : String := (m.get? k).getD ""

/-- The second result of `_, ok := m[k]`. -/
def GoMap.has (m : GoMap) (k : String) : Bool := (m.get? k).isSome

/-! ## `strings.Join` -/

/-- The function `strings.Join(elems, sep)`: the empty string for no elements, the element
itself for one, otherwise the first element followed by `sep` and the next element, for each
further element in turn. -/
def Join : List String → String → String
  | [], _ => ""
  | [e], _ => e
  | e :: rest, sep => rest.foldl (fun b s => b ++ sep ++ s) e

/-! ## The helpers of `util.go` -/

/-- The function `JoinSlicesOrNone(sl, sep)`. It only reads the length and the elements of
`sl`, which it receives here as the list of elements. -/
def JoinSlicesOrNone (sl : List String) (sep : String) : String :=
  if sl.length = 0 then "None" else Join sl sep

/-- The function `JoinSlicesWithMaxOrNone(sl, max, sep)`, with the effect of `append` on the caller's
backing array made explicit. -/
def JoinSlicesWithMaxOrNone (sl : Slice) (max : Int) (sep : String) : CallResult :=
  if sl.len = 0 then ⟨some "None", sl.arr⟩
  else if (sl.len : Int) < max then ⟨some (Join sl.elems sep), sl.arr⟩
  else
    match sl.sliceTo max with
    | none => ⟨none, sl.arr⟩
    | some toDisplay =>
      let r := toDisplay.append "..."
      ⟨some (Join r.1.elems sep), r.2⟩

/-- The loop of `StringMapsEqual` over the keys of `a` still to visit. -/
def StringMapsEqual.loop (a b : GoMap) : List String → Bool
  | [] => true
  | k :: ks => if a.index k ≠ b.index k then false else StringMapsEqual.loop a b ks

/-- The function `StringMapsEqual(a, b)`. -/
def StringMapsEqual (a b : GoMap) : Bool :=
  if a.len ≠ b.len then false else StringMapsEqual.loop a b a.keys

/-- The loop of `ExcludeFromSlice`: the elements still to visit, the index `k` of the next
one, the result array `res` and the counter `i`. -/
def ExcludeFromSlice.loop (exclude : GoMap) :
    List String → Nat → List String → Nat → List String × Nat
  | [], _, res, i => (res, i)
  | v :: rest, k, res, i =>
    if exclude.has v then ExcludeFromSlice.loop exclude rest (k + 1) res i
    else ExcludeFromSlice.loop exclude rest (k + 1) (res.set k v) (i + 1)

/-- The function `ExcludeFromSlice(sl, exclude)`: `res` starts as `len(sl)` empty strings,
the loop stores at `res[k]`, and the result is `res[:i]`. The function only reads `sl`,
received here as its list of elements. -/
def ExcludeFromSlice (sl : List String) (exclude : GoMap) : List String :=
  let r := ExcludeFromSlice.loop exclude sl 0 (List.replicate sl.length "") 0
  r.1.take r.2

/-! ## `time.Duration` and `fmt` -/

/-- The smallest `int64`, `time.minDuration`. -/
def minDuration : Int := -9223372036854775808

/-- The largest `int64`, `time.maxDuration`. -/
def maxDuration : Int := 9223372036854775807

/-- The constant `time.Minute`, in nanoseconds. -/
def Minute : Int := 60000000000

/-- The constant `time.Hour`, in nanoseconds. -/
def Hour : Int := 3600000000000

/-- Two's complement wrap-around of `int64` arithmetic. -/
def wrap64 (x : Int) : Int := (x + 9223372036854775808) % 18446744073709551616 - 9223372036854775808

/-- The conversion `uint64(x)` of an `int64`. -/
def toUint64 (x : Int) : Int := x % 18446744073709551616

/-- The method `now.Sub(t)` for two instants given in nanoseconds on a common time line: the
difference, saturated to the range of a `Duration`. -/
def Sub (now t : Int) : Int :=
  if now - t < minDuration then minDuration
  else if maxDuration < now - t then maxDuration
  else now - t

/-- The helper `lessThanHalf(x, y)` of package `time`: `uint64(x)+uint64(x) < uint64(y)`. -/
def lessThanHalf (x y : Int) : Bool :=
  decide ((toUint64 x + toUint64 x) % 18446744073709551616 < toUint64 y)

/-- The method `d.Round(m)`: round to the nearest multiple of `m`, halfway values away from
zero, saturating on overflow. `%` on `int64` truncates towards zero. -/
def Round (d m : Int) : Int :=
  if m ≤ 0 then d
  else
    let r := d.tmod m
    if d < 0 then
      let r := wrap64 (-r)
      if lessThanHalf r m then wrap64 (d + r)
      else
        let d1 := wrap64 (wrap64 (d - m) + r)
        if d1 < d then d1 else minDuration
    else
      if lessThanHalf r m then wrap64 (d - r)
      else
        let d1 := wrap64 (wrap64 (d + m) - r)
        if d1 > d then d1 else maxDuration

/-- The method `d.Hours()`: `float64(d / Hour) + float64(d % Hour) / (60 * 60 * 1e9)`,
computed here in exact rational arithmetic. `TimeToAge` applies it to the result of `Round`,
a whole number of minutes; there the `float64` value lies within `1e-8` of the exact one
(and is exact on whole hours), while the comparison with `30` and the truncation of
`Hours()/24` are decided by margins of at least `1/1440`, so both come out as in exact
arithmetic. -/
def Hours (d : Int) : ℚ := (d.tdiv Hour : ℚ) + (d.tmod Hour : ℚ) / (60 * 60 * 1000000000)

/-- The conversion `int(x)` of a floating-point value: truncation towards zero. -/
def truncToInt (x : ℚ) : Int := if 0 ≤ x then ⌊x⌋ else ⌈x⌉

/-- The decimal digits of `n`, left-padded with `'0'` to at least `prec` digits, as
`fmt` writes an unsigned magnitude. -/
def fmtDigits (n prec : Nat) : String :=
  String.mk (List.replicate (prec - (Nat.repr n).length) '0') ++ Nat.repr n

/-- The call `fmt.Sprintf("%d", v)`. -/
def Sprintf_d (v : Int) : String :=
  if v < 0 then "-" ++ fmtDigits v.natAbs 0 else fmtDigits v.natAbs 0

/-- The call `fmt.Sprintf("%02d", v)`: width 2 with zero padding; the zeros go between the
sign and the digits, and a minus sign takes one of the two columns. -/
def Sprintf_02d (v : Int) : String :=
  if v < 0 then "-" ++ fmtDigits v.natAbs 1 else fmtDigits v.natAbs 2

/-- The function `TimeToAge(t)`, with the reading of the clock `time.Now()` as the parameter
`now`; both instants are in nanoseconds on a common time line. -/
def TimeToAge (now t : Int) : String :=
  let duration := Sub now t
  let duration := Round duration Minute
  if Hours duration > 30 then
    Sprintf_d (truncToInt (Hours duration / 24)) ++ "d"
  else
    let hour := duration.tdiv Hour
    let duration := wrap64 (duration - wrap64 (hour * Hour))
    let minute := duration.tdiv Minute
    Sprintf_02d hour ++ ":" ++ Sprintf_02d minute

/-! ## Shapes of an age string -/

/-- A decimal digit `'0'..'9'`. -/
def isDigit (c : Char) : Bool := decide ('0'.toNat ≤ c.toNat ∧ c.toNat ≤ '9'.toNat)

/-- The shape `HH:MM`: two digits, a colon, two digits. -/
def isHHMM (s : String) : Bool :=
  match s.data with
  | [a, b, c, d, e] => isDigit a && isDigit b && decide (c = ':') && isDigit d && isDigit e
  | _ => false

/-- The shape `Nd`: a non-empty run of digits followed by the letter `d`. -/
def isNd (s : String) : Bool :=
  match s.data.reverse with
  | c :: ds => decide (c = 'd') && !ds.isEmpty && ds.all isDigit
  | [] => false

/-- Two decimal digits for a number below 100: tens, then units. -/
def twoDigits (n : Nat) : String :=
  String.mk [Char.ofNat ('0'.toNat + n / 10), Char.ofNat ('0'.toNat + n % 10)]

/-- Nearest whole minute of a non-negative number of nanoseconds, half a minute rounding up. -/
def roundToMinute (d : Int) : Int := (d + 30000000000) / 60000000000 * 60000000000

/-- Concatenation of the elements in order, with `sep` between each pair of consecutive
elements and nowhere else. -/
def joinWithSep (sl : List String) (sep : String) : String :=
  String.join (sl.intersperse sep)

/-- Two maps are equal as maps: every key has the same binding (or none) in both. -/
def GoMap.sameBindings (a b : GoMap) : Prop := ∀ k, a.get? k = b.get? k

/-! ## Further helpers of `util.go` -/

/-- The loop of `JoinStringMap` over the entries of `m` still to visit, with the result array
`res` and the index `i` of the next cell. -/
def JoinStringMap.loop (sep : String) :
    List (String × String) → List String → Nat → List String
  | [], res, _ => res
  | e :: rest, res, i => JoinStringMap.loop sep rest (res.set i (e.1 ++ sep ++ e.2)) (i + 1)

set_option linter.unusedVariables false in
/-- The function `JoinStringMap(m, exclude, sep)`: `res` starts as `len(m)` empty strings and
the loop stores `k+sep+v` at `res[i]` for each entry. The body does not mention `exclude`. -/
def JoinStringMap (m exclude : GoMap) (sep : String) : List String :=
  JoinStringMap.loop sep m.entries (List.replicate m.len "") 0

/-- The loop of `StringSlicesEqual`: the elements of `a` still to visit and the index `k` of
the next one. Reading `b[k]` out of range panics (`none`). -/
def StringSlicesEqual.loop (b : List String) : List String → Nat → Option Bool
  | [], _ => some true
  | x :: rest, k =>
    match b[k]? with
    | none => none
    | some y => if x ≠ y then some false else StringSlicesEqual.loop b rest (k + 1)

/-- The function `StringSlicesEqual(a, b)` on the elements of the two slices; `none` stands
for an index-out-of-range panic. -/
def StringSlicesEqual (a b : List String) : Option Bool :=
  if a.length ≠ b.length then some false else StringSlicesEqual.loop b a 0

/-- The loop of `DumpLine`: the number of elements still to visit, the index `k` of the next
one and the backing array, which the loop writes to. -/
def DumpLine.loop : Nat → Nat → List String → List String
  | 0, _, arr => arr
  | n + 1, k, arr =>
    if arr.getD k "" = "" then DumpLine.loop n (k + 1) (arr.set k "None")
    else DumpLine.loop n (k + 1) arr

/-- The function `DumpLine(lst)`, with its writes to the caller's backing array made
explicit. -/
def DumpLine (lst : Slice) : CallResult :=
  let arr := DumpLine.loop lst.len 0 lst.arr
  ⟨some (Join (arr.take lst.len) " " ++ "\n"), arr⟩

/-- The function `strconv.Itoa(v)`: the decimal digits of the magnitude, after a minus sign for
a negative number. -/
def Itoa (v : Int) : String :=
  if v < 0 then "-" ++ Nat.repr v.natAbs else Nat.repr v.natAbs

/-- The loop of `JoinIntSlice`: the elements still to visit, the index `i` of the next one and
the array `b`. -/
def JoinIntSlice.loop : List Int → Nat → List String → List String
  | [], _, b => b
  | v :: rest, i, b => JoinIntSlice.loop rest (i + 1) (b.set i (Itoa v))

/-- The function `JoinIntSlice(a, sep)`. -/
def JoinIntSlice (a : List Int) (sep : String) : String :=
  if a.length = 0 then "None"
  else Join (JoinIntSlice.loop a 0 (List.replicate a.length "")) sep

/-- The output streams of the process. -/
structure Proc where
  stdout : List String
  stderr : List String
deriving DecidableEq, Repr

/-- How a call ends: it returns to its caller, or the process has exited with a status code. -/
inductive Outcome where
  | returned (p : Proc)
  | exited (p : Proc) (code : Int)
deriving DecidableEq, Repr

/-- Sequencing: the next statement runs only if the previous one returned. -/
def Outcome.andThen (o : Outcome) (k : Proc → Outcome) : Outcome :=
  match o with
  | Outcome.returned p => k p
  | Outcome.exited p code => Outcome.exited p code

/-- The call `debug.PrintStack()`: writes the stack trace of the calling goroutine, here the
parameter `stack`, to standard error. -/
def PrintStack (stack : String) (p : Proc) : Outcome :=
  Outcome.returned ⟨p.stdout, p.stderr ++ [stack]⟩

/-- The call `fmt.Printf` with the already formatted text `text`: writes to standard output. -/
def Printf (text : String) (p : Proc) : Outcome :=
  Outcome.returned ⟨p.stdout ++ [text], p.stderr⟩

/-- The call `os.Exit(code)`: the process exits at once with the given status. -/
def Exit (code : Int) (p : Proc) : Outcome :=
  Outcome.exited p code

/-- The function `FatalIf(err)`; an error is given by its message `err.Error()`, `none` is the
nil error. -/
def FatalIf (stack : String) (err : Option String) (p : Proc) : Outcome :=
  match err with
  | none => Outcome.returned p
  | some msg =>
    ((PrintStack stack p).andThen (Printf ("Fatal error: " ++ msg ++ "\n"))).andThen (Exit (-1))

/-- The function `strings.HasPrefix(s, pre)`. -/
def HasPrefix (s pre : String) : Bool := pre.data.isPrefixOf s.data

/-- The function `strings.TrimPrefix(s, pre)`: `s[len(pre):]` when `s` starts with `pre`, and
`s` otherwise. -/
def TrimPrefix (s pre : String) : String :=
  if HasPrefix s pre then String.mk (s.data.drop pre.data.length) else s

/-- The function `ExtractClusterFromHost(host)`. The parser `url.ParseRequestURI` is a
parameter: it yields an error or, on success, the `Host` component of the parsed URL. The
result is the pair of the returned string and the returned error (`none` for nil). -/
def ExtractClusterFromHost (ParseRequestURI : String → Except String String) (host : String) :
    String × Option String :=
  match ParseRequestURI host with
  | Except.error err => ("", some err)
  | Except.ok parsedHost => (TrimPrefix parsedHost "kubernetes.", none)

/-- The values of `lst` after `DumpLine` as the function's comment has them: `"None"` for an
empty string, the element itself otherwise. -/
def noneIfEmpty (v : String) : String := if v = "" then "None" else v

/-- The number written by a string of decimal digits. -/
def decimalValue (ds : List Char) : Nat :=
  ds.foldl (fun acc c => 10 * acc + (c.toNat - '0'.toNat)) 0

/-! ## Sample inputs -/

/-- The slice `["x", "y", "z"]`. -/
def xyz : List String := ["x", "y", "z"]

/-- The exclusion map with the single key `"y"`. -/
def onlyY : GoMap := ⟨[("y", "")], by decide⟩

/-- The map `{a: ""}`. -/
def mapAEmpty : GoMap := ⟨[("a", "")], by decide⟩

/-- The map `{b: "x"}`. -/
def mapBX : GoMap := ⟨[("b", "x")], by decide⟩

/-- The slice `["a", "b", "c"]`, spanning its backing array. -/
def abc : Slice := Slice.ofList ["a", "b", "c"]

/-- The map `{a: "1"}`. -/
def mapA1 : GoMap := ⟨[("a", "1")], by decide⟩

/-- The slice `["a", "", "b"]`, spanning its backing array. -/
def aEmptyB : Slice := Slice.ofList ["a", "", "b"]

/-- The slice `["a"]`, spanning its backing array. -/
def onlyA : Slice := Slice.ofList ["a"]

/-- A parser that accepts `"https://kubernetes.example.com"`, with host
`"kubernetes.example.com"`, and rejects everything else. -/
def sampleParse (host : String) : Except String String :=
  if host = "https://kubernetes.example.com" then Except.ok "kubernetes.example.com"
  else Except.error "invalid URI for request"

/-! ## Auxiliary lemmas -/

theorem Slice.length_elems (s : Slice) : s.elems.length = s.len := by
  simp [Slice.elems, s.len_le]

theorem take_set_succ (l : List String) (m : Nat) (x : String) (h : m < l.length) :
    (l.set m x).take (m + 1) = l.take m ++ [x] := by
  induction l generalizing m with
  | nil => simp at h
  | cons a l ih =>
    cases m with
    | zero => simp
    | succ m =>
      have hm : m < l.length := by simpa using h
      simp [ih m hm]

theorem foldl_append_eq (l : List String) (acc : String) :
    l.foldl (fun r s => r ++ s) acc = acc ++ l.foldl (fun r s => r ++ s) "" := by
  induction l generalizing acc with
  | nil => simp
  | cons a l ih =>
    simp only [List.foldl_cons]
    rw [ih (acc ++ a), ih ("" ++ a)]
    simp [String.append_assoc]

theorem join_cons (a : String) (l : List String) : String.join (a :: l) = a ++ String.join l := by
  simp only [String.join, List.foldl_cons]
  rw [foldl_append_eq]
  simp

theorem Join_foldl (rest : List String) (sep acc : String) :
    rest.foldl (fun b s => b ++ sep ++ s) acc =
      acc ++ String.join (rest.flatMap (fun s => [sep, s])) := by
  induction rest generalizing acc with
  | nil => simp [String.join]
  | cons a l ih =>
    simp only [List.foldl_cons, List.flatMap_cons, List.cons_append, List.nil_append]
    rw [ih, join_cons, join_cons]
    simp [String.append_assoc]

theorem intersperse_cons_eq (e sep : String) (rest : List String) :
    (e :: rest).intersperse sep = e :: rest.flatMap (fun s => [sep, s]) := by
  induction rest generalizing e with
  | nil => simp
  | cons a l ih =>
    rw [List.intersperse_cons_cons, ih a]
    simp

theorem Join_eq_joinWithSep (sl : List String) (sep : String) :
    Join sl sep = joinWithSep sl sep := by
  cases sl with
  | nil => simp [Join, joinWithSep, String.join]
  | cons e rest =>
    cases rest with
    | nil => simp [Join, joinWithSep, String.join]
    | cons a l =>
      rw [joinWithSep, intersperse_cons_eq, join_cons]
      simp only [Join]
      rw [Join_foldl]

theorem Sub_nonneg (now t : Int) (h : t ≤ now) : 0 ≤ Sub now t ∧ Sub now t ≤ maxDuration := by
  unfold Sub minDuration maxDuration
  split_ifs <;> omega

theorem Sub_sub_self (now c : Int) (h0 : 0 ≤ c) (hmax : c ≤ maxDuration) :
    Sub now (now - c) = c := by
  unfold maxDuration at hmax
  unfold Sub minDuration maxDuration
  split_ifs <;> omega

theorem Round_Minute_of_nonneg (d : Int) (h0 : 0 ≤ d) (hmax : d ≤ maxDuration) :
    Round d Minute = roundToMinute d := by
  have hr : d.tmod 60000000000 = d % 60000000000 := Int.tmod_eq_emod h0 (by decide)
  unfold maxDuration at hmax
  simp only [Round, Minute, roundToMinute, lessThanHalf, toUint64, wrap64, hr, maxDuration,
    decide_eq_true_eq]
  split_ifs <;> omega

theorem Hours_eq (d : Int) : Hours d = (d : ℚ) / 3600000000000 := by
  have h := Int.tdiv_add_tmod d Hour
  have hq : ((Hour * d.tdiv Hour + d.tmod Hour : Int) : ℚ) = (d : ℚ) := by rw [h]
  unfold Hours
  unfold Hour at hq ⊢
  push_cast at hq
  rw [← hq]
  ring

theorem Hours_gt_iff (d : Int) : Hours d > 30 ↔ 30 * Hour < d := by
  rw [Hours_eq, gt_iff_lt, lt_div_iff₀ (by norm_num), Hour]
  norm_cast

theorem floor_Hours_div (d : Int) : ⌊Hours d / 24⌋ = d / (24 * Hour) := by
  rw [Hours_eq, div_div]
  have := Rat.floor_intCast_div_natCast d 86400000000000
  norm_num at this ⊢
  rw [Hour]
  norm_num
  exact this

theorem truncToInt_Hours (d : Int) (h0 : 0 ≤ d) :
    truncToInt (Hours d / 24) = d / (24 * Hour) := by
  have hnn : (0 : ℚ) ≤ Hours d / 24 := by
    rw [Hours_eq]
    have : (0 : ℚ) ≤ (d : ℚ) := by exact_mod_cast h0
    positivity
  rw [truncToInt, if_pos hnn, floor_Hours_div]

/-- For a timestamp not later than `now`, `TimeToAge` in integer arithmetic on the elapsed
time rounded to the minute. -/
theorem TimeToAge_of_le (now t : Int) (h : t ≤ now) :
    TimeToAge now t =
      if 30 * Hour < roundToMinute (Sub now t) then
        Sprintf_d (roundToMinute (Sub now t) / (24 * Hour)) ++ "d"
      else
        Sprintf_02d (roundToMinute (Sub now t) / Hour) ++ ":" ++
          Sprintf_02d (roundToMinute (Sub now t) % Hour / Minute) := by
  obtain ⟨h0, hmax⟩ := Sub_nonneg now t h
  have hR := Round_Minute_of_nonneg (Sub now t) h0 hmax
  have hr0 : 0 ≤ roundToMinute (Sub now t) := by
    unfold roundToMinute
    omega
  simp only [TimeToAge, hR]
  by_cases hc : 30 * Hour < roundToMinute (Sub now t)
  · rw [if_pos ((Hours_gt_iff _).2 hc), if_pos hc, truncToInt_Hours _ hr0]
  · rw [if_neg (fun hh => hc ((Hours_gt_iff _).1 hh)), if_neg hc]
    have e1 : (roundToMinute (Sub now t)).tdiv Hour = roundToMinute (Sub now t) / Hour :=
      Int.tdiv_eq_ediv hr0 (by decide)
    have e2 : wrap64 (roundToMinute (Sub now t) -
        wrap64 (roundToMinute (Sub now t) / Hour * Hour)) = roundToMinute (Sub now t) % Hour := by
      unfold Hour at hc ⊢
      unfold wrap64
      omega
    have e3 : (roundToMinute (Sub now t) % Hour).tdiv Minute =
        roundToMinute (Sub now t) % Hour / Minute :=
      Int.tdiv_eq_ediv (Int.emod_nonneg _ (by decide)) (by decide)
    rw [e1, e2, e3]

theorem fmtDigits_two : ∀ n, n < 100 → fmtDigits n 2 = twoDigits n := by
  decide

theorem Sprintf_02d_eq (v : Int) (h0 : 0 ≤ v) (h : v < 100) :
    Sprintf_02d v = twoDigits v.toNat := by
  have hn : v.natAbs = v.toNat := by omega
  rw [Sprintf_02d, if_neg (by omega), hn]
  exact fmtDigits_two _ (by omega)

theorem Sprintf_d_eq (v : Int) (h0 : 0 ≤ v) : Sprintf_d v = Nat.repr v.toNat := by
  have hn : v.natAbs = v.toNat := by omega
  rw [Sprintf_d, if_neg (by omega), hn]
  simp [fmtDigits]

theorem isDigit_tens : ∀ n, n < 100 → isDigit (Char.ofNat ('0'.toNat + n / 10)) = true := by
  decide

theorem isDigit_units : ∀ n, n < 100 → isDigit (Char.ofNat ('0'.toNat + n % 10)) = true := by
  decide

theorem data_twoDigits (a b : Nat) :
    (twoDigits a ++ ":" ++ twoDigits b).data =
      [Char.ofNat ('0'.toNat + a / 10), Char.ofNat ('0'.toNat + a % 10), ':',
        Char.ofNat ('0'.toNat + b / 10), Char.ofNat ('0'.toNat + b % 10)] := by
  simp [twoDigits, String.data_append]

theorem isHHMM_twoDigits (a b : Nat) (ha : a < 100) (hb : b < 100) :
    isHHMM (twoDigits a ++ ":" ++ twoDigits b) = true := by
  simp only [isHHMM, data_twoDigits, isDigit_tens a ha, isDigit_units a ha, isDigit_tens b hb,
    isDigit_units b hb]
  decide

theorem length_twoDigits (a b : Nat) : (twoDigits a ++ ":" ++ twoDigits b).length = 5 := by
  show (twoDigits a ++ ":" ++ twoDigits b).data.length = 5
  rw [data_twoDigits]
  rfl

theorem isDigit_digitChar : ∀ m, m < 10 → isDigit (Nat.digitChar m) = true := by
  decide

theorem toDigitsCore_all (fuel : Nat) : ∀ (n : Nat) (ds : List Char),
    (∀ c ∈ ds, isDigit c = true) → ∀ c ∈ Nat.toDigitsCore 10 fuel n ds, isDigit c = true := by
  induction fuel with
  | zero => intro n ds hds; simpa [Nat.toDigitsCore] using hds
  | succ f ih =>
    intro n ds hds
    have hcons : ∀ c ∈ Nat.digitChar (n % 10) :: ds, isDigit c = true := by
      intro c hc
      rcases List.mem_cons.1 hc with rfl | hc
      · exact isDigit_digitChar _ (Nat.mod_lt _ (by decide))
      · exact hds c hc
    simp only [Nat.toDigitsCore]
    split_ifs
    · exact hcons
    · exact ih _ _ hcons

theorem toDigitsCore_length_le (fuel : Nat) : ∀ (n : Nat) (ds : List Char),
    ds.length ≤ (Nat.toDigitsCore 10 fuel n ds).length := by
  induction fuel with
  | zero => intro n ds; simp [Nat.toDigitsCore]
  | succ f ih =>
    intro n ds
    simp only [Nat.toDigitsCore]
    split_ifs
    · simp
    · exact le_trans (by simp) (ih _ (Nat.digitChar (n % 10) :: ds))

theorem toDigits_ne_nil (n : Nat) : Nat.toDigits 10 n ≠ [] := by
  intro h
  have hl : (Nat.toDigits 10 n).length = 0 := by rw [h]; rfl
  unfold Nat.toDigits at hl
  simp only [Nat.toDigitsCore] at hl
  split_ifs at hl
  · simp at hl
  · have := toDigitsCore_length_le n (n / 10) [Nat.digitChar (n % 10)]
    simp at this
    omega

theorem isNd_repr (n : Nat) : isNd (Nat.repr n ++ "d") = true := by
  have hd : (Nat.repr n ++ "d").data.reverse = 'd' :: (Nat.toDigits 10 n).reverse := by
    simp [Nat.repr, List.asString, String.data_append]
  simp only [isNd, hd]
  have hall : ∀ c ∈ Nat.toDigits 10 n, isDigit c = true :=
    toDigitsCore_all _ _ _ (by simp)
  have hne := toDigits_ne_nil n
  simp [hne]
  exact hall

theorem TimeToAge_hhmm_aux (now t : Int) (hle : t ≤ now)
    (h30 : roundToMinute (Sub now t) ≤ 30 * Hour) :
    ∃ hh mm : Nat, hh ≤ 30 ∧ mm ≤ 59 ∧
      (hh : Int) * 60 + mm = roundToMinute (Sub now t) / Minute ∧
      TimeToAge now t = twoDigits hh ++ ":" ++ twoDigits mm := by
  obtain ⟨h0, _⟩ := Sub_nonneg now t hle
  have hr0 : 0 ≤ roundToMinute (Sub now t) := by
    unfold roundToMinute
    omega
  have hhh : 0 ≤ roundToMinute (Sub now t) / Hour ∧ roundToMinute (Sub now t) / Hour ≤ 30 := by
    unfold Hour at h30 ⊢
    omega
  have hmm : 0 ≤ roundToMinute (Sub now t) % Hour / Minute ∧
      roundToMinute (Sub now t) % Hour / Minute ≤ 59 := by
    unfold Hour Minute
    omega
  have hT := TimeToAge_of_le now t hle
  rw [if_neg (by omega), Sprintf_02d_eq _ hhh.1 (by omega),
    Sprintf_02d_eq _ hmm.1 (by omega)] at hT
  refine ⟨(roundToMinute (Sub now t) / Hour).toNat,
    (roundToMinute (Sub now t) % Hour / Minute).toNat, by omega, by omega, ?_, hT⟩
  rw [Int.toNat_of_nonneg hhh.1, Int.toNat_of_nonneg hmm.1]
  unfold Hour Minute
  omega

theorem le_of_rounded_gt (now t : Int) (h30 : 30 * Hour < roundToMinute (Sub now t)) :
    t ≤ now := by
  by_contra hlt
  have : Sub now t < 0 := by
    unfold Sub minDuration maxDuration
    split_ifs <;> omega
  unfold roundToMinute Hour at h30
  omega

theorem TimeToAge_days_aux (now t : Int) (h30 : 30 * Hour < roundToMinute (Sub now t)) :
    TimeToAge now t = Nat.repr (roundToMinute (Sub now t) / (24 * Hour)).toNat ++ "d" := by
  have hday : 1 ≤ roundToMinute (Sub now t) / (24 * Hour) := by
    unfold Hour at h30 ⊢
    omega
  rw [TimeToAge_of_le now t (le_of_rounded_gt now t h30), if_pos h30, Sprintf_d_eq _ (by omega)]

/-- The value of `TimeToAge` for a fixed non-negative elapsed time `c`, whatever the clock
reads. -/
theorem TimeToAge_elapsed (now c : Int) (h0 : 0 ≤ c) (hmax : c ≤ maxDuration) :
    TimeToAge now (now - c) = TimeToAge 0 (-c) := by
  rw [TimeToAge_of_le now _ (by omega), TimeToAge_of_le 0 _ (by omega),
    Sub_sub_self now c h0 hmax]
  have : Sub 0 (-c) = c := by
    have := Sub_sub_self 0 c h0 hmax
    simpa using this
  rw [this]

/-! ## Claims on slices and maps -/

/-- C1: on `["x","y","z"]` with `"y"` excluded, `ExcludeFromSlice` stores `"z"` at index 2 of
the result array but returns only its first two cells, so it yields `["x", ""]` where the
order-preserving filter of the input is `["x", "z"]`. -/
theorem ExcludeFromSlice_xyz :
    ExcludeFromSlice xyz onlyY = ["x", ""] ∧
    xyz.filter (fun v => !onlyY.has v) = ["x", "z"] ∧
    ExcludeFromSlice xyz onlyY ≠ xyz.filter (fun v => !onlyY.has v) := by
  decide

/-- C2: `StringMapsEqual` accepts `{a: ""}` and `{b: "x"}`, two maps of the same size with
different keys: the missing key `a` reads as `""` in the second map. -/
theorem StringMapsEqual_accepts_different_keys :
    StringMapsEqual mapAEmpty mapBX = true ∧ ¬ mapAEmpty.sameBindings mapBX := by
  refine ⟨by decide, fun h => ?_⟩
  have := h "a"
  revert this
  decide

/-- C3: for a non-empty slice and `0 ≤ max ≤ len(sl)`, `JoinSlicesWithMaxOrNone` returns the
first `max` elements of `sl` followed by the token `"..."`, joined by `sep`; exactly `max`
elements of `sl` are shown. -/
theorem JoinSlicesWithMaxOrNone_ellipsis (sl : Slice) (max : Int) (sep : String)
    (hne : sl.len ≠ 0) (h0 : 0 ≤ max) (hmax : max ≤ sl.len) :
    (JoinSlicesWithMaxOrNone sl max sep).ret =
        some (joinWithSep (sl.elems.take max.toNat ++ ["..."]) sep) ∧
      ((sl.elems.take max.toNat).length : Int) = max := by
  have hm : max.toNat ≤ sl.len := by omega
  have hcap : max.toNat ≤ sl.arr.length := le_trans hm sl.len_le
  have htake : sl.elems.take max.toNat = sl.arr.take max.toNat := by
    simp [Slice.elems, List.take_take, hm]
  refine ⟨?_, ?_⟩
  · have hlt : ¬ ((sl.len : Int) < max) := by omega
    simp only [JoinSlicesWithMaxOrNone, hne, hlt, if_false, Slice.sliceTo, h0, hcap,
      and_self, dif_pos]
    rw [← Join_eq_joinWithSep, htake]
    by_cases hc : max.toNat < sl.arr.length
    · simp [Slice.append, hc, Slice.elems, take_set_succ _ _ _ hc]
    · simp only [Slice.append, hc, dif_neg, not_false_eq_true, Slice.elems, Slice.ofList]
      rw [List.take_of_length_le (le_refl _)]
  · rw [htake, List.length_take]
    omega

/-- C3: witness, on `["a","b","c"]` with `max = 2`. -/
theorem JoinSlicesWithMaxOrNone_ellipsis_witness :
    (JoinSlicesWithMaxOrNone abc 2 ",").ret =
        some (joinWithSep (abc.elems.take (2 : Int).toNat ++ ["..."]) ",") ∧
      ((abc.elems.take (2 : Int).toNat).length : Int) = 2 :=
  JoinSlicesWithMaxOrNone_ellipsis abc 2 "," (by decide) (by decide) (by decide)

/-- C4: when `len(sl) < max`, `JoinSlicesWithMaxOrNone(sl, max, sep)` returns what
`JoinSlicesOrNone(sl, sep)` returns. -/
theorem JoinSlicesWithMaxOrNone_short (sl : Slice) (max : Int) (sep : String)
    (h : (sl.len : Int) < max) :
    (JoinSlicesWithMaxOrNone sl max sep).ret = some (JoinSlicesOrNone sl.elems sep) := by
  by_cases h0 : sl.len = 0
  · simp [JoinSlicesWithMaxOrNone, JoinSlicesOrNone, h0, Slice.length_elems]
  · simp [JoinSlicesWithMaxOrNone, JoinSlicesOrNone, h0, h, Slice.length_elems]

/-- C4: witness, on `["a","b","c"]` with `max = 5`. -/
theorem JoinSlicesWithMaxOrNone_short_witness :
    (JoinSlicesWithMaxOrNone abc 5 ",").ret = some (JoinSlicesOrNone abc.elems ",") :=
  JoinSlicesWithMaxOrNone_short abc 5 "," (by decide)

/-- C5: on an empty slice, for every separator and every `max`, both `JoinSlicesOrNone` and
`JoinSlicesWithMaxOrNone` return `"None"`. -/
theorem JoinSlices_empty (sl : Slice) (max : Int) (sep : String) (h : sl.len = 0) :
    JoinSlicesOrNone sl.elems sep = "None" ∧
      (JoinSlicesWithMaxOrNone sl max sep).ret = some "None" := by
  simp [JoinSlicesWithMaxOrNone, JoinSlicesOrNone, h, Slice.length_elems]

/-- C5: witness, on the empty slice with a negative `max`. -/
theorem JoinSlices_empty_witness :
    JoinSlicesOrNone (Slice.ofList []).elems "," = "None" ∧
      (JoinSlicesWithMaxOrNone (Slice.ofList []) (-3) ",").ret = some "None" :=
  JoinSlices_empty (Slice.ofList []) (-3) "," rfl

/-- C6: for a non-empty `sl`, `JoinSlicesOrNone(sl, sep)` is the concatenation of the elements
in order with `sep` between consecutive elements and nowhere else; for a single element it is
that element. -/
theorem JoinSlicesOrNone_nonempty (sl : List String) (sep : String) (h : sl ≠ []) :
    JoinSlicesOrNone sl sep = joinWithSep sl sep ∧
      (∀ x, sl = [x] → JoinSlicesOrNone sl sep = x) := by
  have hl : sl.length ≠ 0 := by simpa using h
  refine ⟨?_, ?_⟩
  · simp only [JoinSlicesOrNone, hl, if_false]
    exact Join_eq_joinWithSep sl sep
  · intro x hx
    subst hx
    simp [JoinSlicesOrNone, Join]

/-- C6: witness, on `["x","y","z"]`. -/
theorem JoinSlicesOrNone_nonempty_witness :
    JoinSlicesOrNone xyz "," = joinWithSep xyz "," ∧
      (∀ x, xyz = [x] → JoinSlicesOrNone xyz "," = x) :=
  JoinSlicesOrNone_nonempty xyz "," (by decide)

/-- C10: on `["a","b","c"]` with `max = 1`, `JoinSlicesWithMaxOrNone` returns `"a,..."` and
leaves the caller's backing array as `["a","...","c"]`: the element at index `max` has been
overwritten by `append`. -/
theorem JoinSlicesWithMaxOrNone_overwrites :
    abc.arr = ["a", "b", "c"] ∧
      JoinSlicesWithMaxOrNone abc 1 "," = ⟨some "a,...", ["a", "...", "c"]⟩ := by
  decide

/-! ## Claims on `TimeToAge` -/

/-- C7: for a timestamp `t` not later than `now` whose elapsed duration rounded to the nearest
minute (half a minute up) is at most 30 hours, `TimeToAge` returns the five characters `HH:MM`,
with `HH ≤ 30` and `MM ≤ 59` two zero-padded decimal digits each and `HH*60+MM` the rounded
duration in minutes; 90 minutes give `"01:30"`. -/
theorem TimeToAge_hhmm :
    (∀ now t : Int, t ≤ now → roundToMinute (Sub now t) ≤ 30 * Hour →
      ∃ hh mm : Nat, hh ≤ 30 ∧ mm ≤ 59 ∧
        (hh : Int) * 60 + mm = roundToMinute (Sub now t) / Minute ∧
        TimeToAge now t = twoDigits hh ++ ":" ++ twoDigits mm ∧
        (TimeToAge now t).length = 5) ∧
    (∀ now : Int, TimeToAge now (now - 90 * Minute) = "01:30") := by
  constructor
  · intro now t hle h30
    obtain ⟨hh, mm, hhh, hmm, hsum, hT⟩ := TimeToAge_hhmm_aux now t hle h30
    exact ⟨hh, mm, hhh, hmm, hsum, hT, by rw [hT]; exact length_twoDigits _ _⟩
  · intro now
    rw [TimeToAge_elapsed now _ (by decide) (by decide), TimeToAge_of_le 0 _ (by decide)]
    decide

/-- C7: witness, 90 minutes of elapsed time. -/
theorem TimeToAge_hhmm_witness :
    ∃ hh mm : Nat, hh ≤ 30 ∧ mm ≤ 59 ∧
      (hh : Int) * 60 + mm = roundToMinute (Sub 0 (-5400000000000)) / Minute ∧
      TimeToAge 0 (-5400000000000) = twoDigits hh ++ ":" ++ twoDigits mm ∧
      (TimeToAge 0 (-5400000000000)).length = 5 :=
  TimeToAge_hhmm.1 0 (-5400000000000) (by decide) (by decide)

/-- C8, as stated, fails: for a timestamp 730119 days before `now` (the zero `time.Time`
seen from 2000-01-01) the elapsed time exceeds the range of a `Duration`, `now.Sub(t)`
saturates, and `TimeToAge` returns `"106751d"`, not the rendering of the 730119 days of the
rounded elapsed time. -/
theorem TimeToAge_days_saturates :
    ¬ (∀ now t : Int, 30 * Hour < roundToMinute (now - t) →
      TimeToAge now t = Nat.repr (roundToMinute (now - t) / (24 * Hour)).toNat ++ "d") := by
  intro h
  have h1 := h 63082281600000000000 0 (by decide)
  have h2 : TimeToAge 63082281600000000000 0 = "106751d" := by
    rw [TimeToAge_of_le _ _ (by decide)]
    decide
  rw [h2] at h1
  revert h1
  decide

/-- C8, amended: for a timestamp whose elapsed duration `now - t` is within the range of a
`Duration` and, rounded to the nearest minute (half a minute up), exceeds 30 hours,
`TimeToAge` returns the decimal rendering of the floor of the rounded hours over 24,
followed by `d`, and that number of days is at least 1. Exactly 30 hours give `"30:00"`,
30 hours and 30 seconds give `"1d"`, and `31*24` hours give `"31d"`. -/
theorem TimeToAge_days_in_range :
    (∀ now t : Int, now - t ≤ maxDuration → 30 * Hour < roundToMinute (now - t) →
      TimeToAge now t = Nat.repr (roundToMinute (now - t) / (24 * Hour)).toNat ++ "d" ∧
      roundToMinute (now - t) / (24 * Hour) =
        ⌊(roundToMinute (now - t) : ℚ) / (Hour : ℚ) / 24⌋ ∧
      1 ≤ roundToMinute (now - t) / (24 * Hour)) ∧
    (∀ now : Int, TimeToAge now (now - 30 * Hour) = "30:00" ∧
      TimeToAge now (now - (30 * Hour + 30000000000)) = "1d" ∧
      TimeToAge now (now - 31 * 24 * Hour) = "31d") := by
  constructor
  · intro now t hrange h30
    have hS : Sub now t = now - t := by
      have hpos : 0 ≤ now - t := by
        unfold roundToMinute Hour at h30
        omega
      unfold maxDuration at hrange
      unfold Sub minDuration maxDuration
      split_ifs <;> omega
    rw [← hS] at h30 ⊢
    refine ⟨TimeToAge_days_aux now t h30, ?_, ?_⟩
    · rw [← floor_Hours_div, Hours_eq]
      simp [Hour]
    · unfold Hour at h30 ⊢
      omega
  · intro now
    refine ⟨?_, ?_, ?_⟩
    · rw [TimeToAge_elapsed now _ (by decide) (by decide), TimeToAge_of_le 0 _ (by decide)]
      decide
    · rw [TimeToAge_elapsed now _ (by decide) (by decide), TimeToAge_of_le 0 _ (by decide)]
      decide
    · rw [show now - 31 * 24 * Hour = now - (31 * 24 * Hour) by ring,
        TimeToAge_elapsed now _ (by decide) (by decide), TimeToAge_of_le 0 _ (by decide)]
      decide

/-- C8, amended: witness, `31*24` hours of elapsed time. -/
theorem TimeToAge_days_in_range_witness :
    TimeToAge 0 (-2678400000000000) =
        Nat.repr (roundToMinute (0 - -2678400000000000) / (24 * Hour)).toNat ++ "d" ∧
      roundToMinute (0 - -2678400000000000) / (24 * Hour) =
        ⌊(roundToMinute (0 - -2678400000000000) : ℚ) / (Hour : ℚ) / 24⌋ ∧
      1 ≤ roundToMinute (0 - -2678400000000000) / (24 * Hour) :=
  TimeToAge_days_in_range.1 0 (-2678400000000000) (by decide) (by decide)

/-- C9, as stated, fails: for a timestamp 90 minutes after `now`, `TimeToAge` returns
`"-1:-30"`, which has neither the shape `HH:MM` nor the shape `Nd`. -/
theorem TimeToAge_future_shape :
    ¬ (∀ now t : Int, isHHMM (TimeToAge now t) = true ∨ isNd (TimeToAge now t) = true) := by
  intro h
  have h1 : TimeToAge 0 (90 * Minute) = "-1:-30" := by decide!
  have h2 := h 0 (90 * Minute)
  rw [h1] at h2
  revert h2
  decide

/-- C9, amended: for every timestamp `t` not later than `now`, the string returned by
`TimeToAge` has the shape `HH:MM` or the shape `Nd`. -/
theorem TimeToAge_shape (now t : Int) (h : t ≤ now) :
    isHHMM (TimeToAge now t) = true ∨ isNd (TimeToAge now t) = true := by
  by_cases h30 : 30 * Hour < roundToMinute (Sub now t)
  · right
    rw [TimeToAge_days_aux now t h30]
    exact isNd_repr _
  · left
    obtain ⟨hh, mm, hhh, hmm, _, hT⟩ := TimeToAge_hhmm_aux now t h (by omega)
    rw [hT]
    exact isHHMM_twoDigits hh mm (by omega) (by omega)

/-- C9, amended: witness, 90 minutes of elapsed time. -/
theorem TimeToAge_shape_witness :
    isHHMM (TimeToAge 0 (-5400000000000)) = true ∨ isNd (TimeToAge 0 (-5400000000000)) = true :=
  TimeToAge_shape 0 (-5400000000000) (by decide)

/-! ## Lemmas on the loops of `DumpLine` and `StringSlicesEqual` -/

theorem DumpLine.loop_getElem? (n : Nat) : ∀ (k : Nat) (arr : List String) (i : Nat),
    (DumpLine.loop n k arr)[i]? =
      if k ≤ i ∧ i < k + n then arr[i]?.map noneIfEmpty else arr[i]? := by
  induction n with
  | zero =>
    intro k arr i
    rw [if_neg (by omega)]
    rfl
  | succ n ih =>
    intro k arr i
    simp only [DumpLine.loop, List.getD_eq_getElem?_getD]
    by_cases hv : (arr[k]?).getD "" = ""
    · rw [if_pos hv, ih]
      by_cases hik : i = k
      · subst hik
        rw [if_neg (by omega), if_pos (by omega), List.getElem?_set_self']
        cases h : arr[i]? with
        | none => simp
        | some x =>
          have hx : x = "" := by simpa [h] using hv
          simp [hx, noneIfEmpty]
      · rw [List.getElem?_set_ne (fun h => hik h.symm)]
        by_cases hc : k + 1 ≤ i ∧ i < k + 1 + n
        · rw [if_pos hc, if_pos (by omega)]
        · rw [if_neg hc, if_neg (by omega)]
    · rw [if_neg hv, ih]
      by_cases hik : i = k
      · subst hik
        rw [if_neg (by omega), if_pos (by omega)]
        cases h : arr[i]? with
        | none => simp [h] at hv
        | some x =>
          have hx : x ≠ "" := by simpa [h] using hv
          simp [hx, noneIfEmpty]
      · by_cases hc : k + 1 ≤ i ∧ i < k + 1 + n
        · rw [if_pos hc, if_pos (by omega)]
        · rw [if_neg hc, if_neg (by omega)]

theorem DumpLine.loop_length (n : Nat) : ∀ (k : Nat) (arr : List String),
    (DumpLine.loop n k arr).length = arr.length := by
  induction n with
  | zero => intro k arr; rfl
  | succ n ih =>
    intro k arr
    simp only [DumpLine.loop]
    split_ifs
    · rw [ih, List.length_set]
    · rw [ih]

theorem DumpLine.loop_take (len : Nat) (arr : List String) :
    (DumpLine.loop len 0 arr).take len = (arr.take len).map noneIfEmpty := by
  apply List.ext_getElem?
  intro i
  rw [List.getElem?_take, List.getElem?_map, List.getElem?_take, DumpLine.loop_getElem?]
  by_cases hi : i < len
  · rw [if_pos hi, if_pos hi, if_pos (by omega)]
  · rw [if_neg hi, if_neg hi]
    rfl

theorem DumpLine_ret (lst : Slice) :
    (DumpLine lst).ret = some (joinWithSep (lst.elems.map noneIfEmpty) " " ++ "\n") := by
  simp only [DumpLine, Slice.elems, DumpLine.loop_take, Join_eq_joinWithSep]

theorem StringSlicesEqual.loop_decide (b : List String) : ∀ (a : List String) (k : Nat),
    k + a.length = b.length →
      StringSlicesEqual.loop b a k = some (decide (a = b.drop k)) := by
  intro a
  induction a with
  | nil =>
    intro k hk
    have : b.drop k = [] := List.drop_eq_nil_of_le (by simp at hk; omega)
    simp [StringSlicesEqual.loop, this]
  | cons x rest ih =>
    intro k hk
    have hlt : k < b.length := by simp at hk; omega
    have hb : b[k]? = some b[k] := List.getElem?_eq_getElem hlt
    simp only [StringSlicesEqual.loop, hb]
    rw [List.drop_eq_getElem_cons hlt]
    by_cases hxy : x = b[k]
    · rw [if_neg (not_not.2 hxy), ih (k + 1) (by simp at hk ⊢; omega)]
      simp only [hxy, List.cons.injEq, true_and]
    · rw [if_pos hxy]
      simp only [List.cons.injEq, hxy, false_and, decide_False]

theorem eq_iff_pointwise (a b : List String) :
    a = b ↔ a.length = b.length ∧ ∀ i, i < a.length → a[i]? = b[i]? := by
  constructor
  · rintro rfl
    exact ⟨rfl, fun _ _ => rfl⟩
  · rintro ⟨hl, h⟩
    apply List.ext_getElem?
    intro i
    by_cases hi : i < a.length
    · exact h i hi
    · rw [List.getElem?_eq_none (by omega), List.getElem?_eq_none (by omega)]

/-! ## Claims on `DumpLine` and `StringSlicesEqual` -/

/-- C11, as stated, fails: on `["a", "", "b"]` the call `DumpLine(lst)` leaves the caller's
sequence as `["a", "None", "b"]`. -/
theorem DumpLine_writes :
    ¬ (∀ lst : Slice, (DumpLine lst).arr = lst.arr) := by
  intro h
  have h1 := h aEmptyB
  revert h1
  decide

/-- C11, amended: `DumpLine(lst)` writes only to the elements of `lst` that were the empty
string. After the call each of them holds `"None"`, every other element of the caller's
sequence, and every cell of the backing array beyond it, has the value it had before, and
the sequence has the same length. -/
theorem DumpLine_frame (lst : Slice) :
    (DumpLine lst).arr.length = lst.arr.length ∧
      ∀ i x, lst.arr[i]? = some x →
        (DumpLine lst).arr[i]? = some (if i < lst.len ∧ x = "" then "None" else x) := by
  refine ⟨DumpLine.loop_length _ _ _, ?_⟩
  intro i x hx
  simp only [DumpLine, DumpLine.loop_getElem?, hx, Option.map_some', noneIfEmpty]
  by_cases hi : i < lst.len
  · by_cases hxe : x = "" <;> simp [hi, hxe]
  · simp [hi]

/-- C11, amended: witness, the middle element of `["a", "", "b"]`. -/
theorem DumpLine_frame_witness :
    (DumpLine aEmptyB).arr[1]? = some (if 1 < aEmptyB.len ∧ "" = "" then "None" else "") :=
  (DumpLine_frame aEmptyB).2 1 "" (by decide)

/-- C14: `DumpLine(lst)` returns the elements of `lst` in order, each empty string replaced
by `"None"` and every other element unchanged, joined by a single space and followed by one
newline; for the empty sequence it returns `"\n"`. -/
theorem DumpLine_line :
    (∀ lst : Slice,
      (DumpLine lst).ret = some (joinWithSep (lst.elems.map noneIfEmpty) " " ++ "\n")) ∧
    (∀ lst : Slice, lst.len = 0 → (DumpLine lst).ret = some "\n") := by
  refine ⟨DumpLine_ret, ?_⟩
  intro lst h0
  rw [DumpLine_ret]
  simp [Slice.elems, h0, joinWithSep, String.join]

/-- C14: witness, an empty slice with spare capacity. -/
theorem DumpLine_line_witness :
    (DumpLine ⟨["a"], 0, by decide⟩).ret = some "\n" :=
  DumpLine_line.2 ⟨["a"], 0, by decide⟩ rfl

/-- C12: `StringSlicesEqual(a, b)` always returns, never reading `b` out of range, and its
result is true exactly when `a` and `b` have the same length and agree at every index; two
sequences of length zero, nil or not, are equal. -/
theorem StringSlicesEqual_iff :
    (∀ a b : List String, ∃ r, StringSlicesEqual a b = some r ∧
      (r = true ↔ a.length = b.length ∧ ∀ i, i < a.length → a[i]? = b[i]?)) ∧
    (∀ s t : Slice, s.len = 0 → t.len = 0 →
      StringSlicesEqual s.elems t.elems = some true) := by
  have key : ∀ a b : List String, StringSlicesEqual a b = some (decide (a = b)) := by
    intro a b
    by_cases hl : a.length = b.length
    · rw [StringSlicesEqual, if_neg (not_not.2 hl),
        StringSlicesEqual.loop_decide b a 0 (by omega)]
      simp
    · rw [StringSlicesEqual, if_pos hl]
      have : a ≠ b := fun h => hl (by rw [h])
      simp [this]
  constructor
  · intro a b
    refine ⟨decide (a = b), key a b, ?_⟩
    rw [decide_eq_true_iff]
    exact eq_iff_pointwise a b
  · intro s t hs ht
    rw [key]
    simp [Slice.elems, hs, ht]

/-- C12: witness, the nil slice against an empty slice with capacity. -/
theorem StringSlicesEqual_iff_witness :
    StringSlicesEqual (Slice.ofList []).elems (Slice.mk ["a"] 0 (by decide)).elems =
      some true :=
  StringSlicesEqual_iff.2 (Slice.ofList []) (Slice.mk ["a"] 0 (by decide)) rfl rfl

/-! ## Lemmas on `JoinIntSlice` and decimal digits -/

theorem JoinIntSlice.loop_map : ∀ (a : List Int) (i : Nat) (b : List String),
    i + a.length ≤ b.length →
      JoinIntSlice.loop a i b = b.take i ++ a.map Itoa ++ b.drop (i + a.length) := by
  intro a
  induction a with
  | nil =>
    intro i b _
    simp [JoinIntSlice.loop]
  | cons v rest ih =>
    intro i b h
    have hlen : i + (rest.length + 1) ≤ b.length := by simpa using h
    simp only [JoinIntSlice.loop]
    rw [ih (i + 1) (b.set i (Itoa v)) (by rw [List.length_set]; omega),
      take_set_succ b i (Itoa v) (by omega), List.drop_set_of_lt _ _ (by omega)]
    simp [Nat.add_assoc, Nat.add_comm 1]

theorem JoinIntSlice.loop_replicate (a : List Int) :
    JoinIntSlice.loop a 0 (List.replicate a.length "") = a.map Itoa := by
  rw [JoinIntSlice.loop_map a 0 _ (by simp)]
  simp

theorem digitChar_value : ∀ m, m < 10 → (Nat.digitChar m).toNat - '0'.toNat = m := by
  decide

theorem digitChar_ne_zero : ∀ m, m < 10 → 0 < m → Nat.digitChar m ≠ '0' := by
  decide

theorem toDigitsCore_value (fuel : Nat) : ∀ (n : Nat) (ds : List Char), n < fuel →
    (Nat.toDigitsCore 10 fuel n ds).foldl (fun acc c => 10 * acc + (c.toNat - '0'.toNat)) 0 =
      ds.foldl (fun acc c => 10 * acc + (c.toNat - '0'.toNat)) n := by
  induction fuel with
  | zero => intro n ds h; omega
  | succ f ih =>
    intro n ds h
    simp only [Nat.toDigitsCore]
    split_ifs with h0
    · have hn : n % 10 = n := by omega
      simp only [List.foldl_cons, digitChar_value _ (Nat.mod_lt n (by decide))]
      simp [hn]
    · rw [ih (n / 10) _ (by omega)]
      simp only [List.foldl_cons, digitChar_value _ (Nat.mod_lt n (by decide))]
      congr 1
      omega

theorem toDigitsCore_head (fuel : Nat) : ∀ (n : Nat) (ds : List Char), 0 < n → n < fuel →
    (Nat.toDigitsCore 10 fuel n ds).head? ≠ some '0' := by
  induction fuel with
  | zero => intro n ds _ h; omega
  | succ f ih =>
    intro n ds hpos h
    simp only [Nat.toDigitsCore]
    split_ifs with h0
    · have hd := digitChar_ne_zero (n % 10) (Nat.mod_lt n (by decide)) (by omega)
      simpa using hd
    · exact ih (n / 10) _ (by omega) (by omega)

theorem repr_digits (n : Nat) :
    (Nat.toDigits 10 n) ≠ [] ∧ (∀ c ∈ Nat.toDigits 10 n, isDigit c = true) ∧
      decimalValue (Nat.toDigits 10 n) = n ∧
      (n ≠ 0 → (Nat.toDigits 10 n).head? ≠ some '0') ∧
      Nat.repr n = String.mk (Nat.toDigits 10 n) := by
  refine ⟨toDigits_ne_nil n, toDigitsCore_all _ _ _ (by simp), ?_, ?_, rfl⟩
  · have := toDigitsCore_value (n + 1) n [] (by omega)
    simpa [decimalValue, Nat.toDigits] using this
  · intro hn
    exact toDigitsCore_head (n + 1) n [] (by omega) (by omega)

/-! ## Lemmas on maps -/

theorem GoMap.get?_eq_none_iff (m : GoMap) (k : String) : m.get? k = none ↔ k ∉ m.keys := by
  simp only [GoMap.get?, GoMap.keys, Option.map_eq_none', List.find?_eq_none, List.mem_map,
    decide_eq_true_eq]
  constructor
  · rintro h ⟨e, he, rfl⟩
    exact h e he rfl
  · intro h e he hk
    exact h ⟨e, he, hk⟩

theorem GoMap.mem_keys_of_index_ne (m : GoMap) (k : String) (h : m.index k ≠ "") :
    k ∈ m.keys := by
  by_contra hk
  have := (m.get?_eq_none_iff k).2 hk
  simp [GoMap.index, this] at h

theorem GoMap.index_ne_of_mem (m : GoMap) (hm : ∀ e ∈ m.entries, e.2 ≠ "") (k : String)
    (hk : k ∈ m.keys) : m.index k ≠ "" ∧ m.get? k = some (m.index k) := by
  cases hf : m.entries.find? (fun e => decide (e.1 = k)) with
  | none =>
    have : m.get? k = none := by simp [GoMap.get?, hf]
    exact absurd hk ((m.get?_eq_none_iff k).1 this)
  | some e =>
    have he := List.mem_of_find?_eq_some hf
    have : m.get? k = some e.2 := by simp [GoMap.get?, hf]
    simp [GoMap.index, this, hm e he]

theorem StringMapsEqual.loop_iff (a b : GoMap) (ks : List String) :
    StringMapsEqual.loop a b ks = true ↔ ∀ k ∈ ks, a.index k = b.index k := by
  induction ks with
  | nil => simp [StringMapsEqual.loop]
  | cons k ks ih =>
    simp only [StringMapsEqual.loop, List.mem_cons, forall_eq_or_imp]
    by_cases h : a.index k = b.index k
    · simp [h, ih]
    · simp [h]

theorem StringMapsEqual_iff_loop (a b : GoMap) :
    StringMapsEqual a b = true ↔
      a.len = b.len ∧ ∀ k ∈ a.keys, a.index k = b.index k := by
  by_cases hl : a.len = b.len
  · simp [StringMapsEqual, hl, StringMapsEqual.loop_iff]
  · simp [StringMapsEqual, hl]

theorem GoMap.length_keys (m : GoMap) : m.keys.length = m.len := by
  simp [GoMap.keys, GoMap.len]

theorem JoinSlicesWithMaxOrNone_returns_aux (sl : Slice) (max : Int) (sep : String)
    (h : sl.len = 0 ∨ 0 ≤ max) : ∃ s, (JoinSlicesWithMaxOrNone sl max sep).ret = some s := by
  by_cases h0 : sl.len = 0
  · exact ⟨"None", by simp [JoinSlicesWithMaxOrNone, h0]⟩
  · have hmax : 0 ≤ max := h.resolve_left h0
    by_cases hlt : (sl.len : Int) < max
    · refine ⟨Join sl.elems sep, ?_⟩
      simp only [JoinSlicesWithMaxOrNone, h0, hlt, if_false, if_true]
    · have hcap : max.toNat ≤ sl.arr.length := le_trans (by omega) sl.len_le
      refine ⟨Join ((Slice.mk sl.arr max.toNat hcap).append "...").1.elems sep, ?_⟩
      simp only [JoinSlicesWithMaxOrNone, h0, hlt, if_false, Slice.sliceTo, hmax, hcap,
        and_self, dif_pos]

/-! ## Claims on the remaining helpers -/

/-- C13: on `m = {a: "1"}` with `exclude = {a: ""}`, `JoinStringMap` returns `["a=1"]`: the
key `a` of `exclude` still has its entry, where the claim asks for none. -/
theorem JoinStringMap_ignores_exclude :
    mapAEmpty.has "a" = true ∧ JoinStringMap mapA1 mapAEmpty "=" = ["a=1"] := by
  decide

/-- C15: `JoinIntSlice(a, sep)` is `"None"` for an empty `a` and otherwise the renderings of
the elements in order with `sep` between consecutive ones; the rendering of an element is a
minus sign for a negative value followed by the decimal digits of its magnitude, at least one
digit, with no leading zero (except for `0` itself). -/
theorem JoinIntSlice_spec :
    (∀ sep : String, JoinIntSlice [] sep = "None") ∧
    (∀ (a : List Int) (sep : String), a ≠ [] →
      JoinIntSlice a sep = joinWithSep (a.map Itoa) sep) ∧
    (∀ v : Int, ∃ ds : List Char, ds ≠ [] ∧ (∀ c ∈ ds, isDigit c = true) ∧
      decimalValue ds = v.natAbs ∧ (v ≠ 0 → ds.head? ≠ some '0') ∧
      Itoa v = (if v < 0 then "-" else "") ++ String.mk ds) := by
  refine ⟨fun sep => rfl, ?_, ?_⟩
  · intro a sep ha
    have hl : a.length ≠ 0 := by simpa using ha
    rw [JoinIntSlice, if_neg hl, JoinIntSlice.loop_replicate, Join_eq_joinWithSep]
  · intro v
    obtain ⟨h1, h2, h3, h4, h5⟩ := repr_digits v.natAbs
    refine ⟨Nat.toDigits 10 v.natAbs, h1, h2, h3, fun hv => h4 (by omega), ?_⟩
    rw [Itoa, h5]
    split_ifs
    · rfl
    · simp

/-- C15: witness, on `[1, -20, 0]`. -/
theorem JoinIntSlice_spec_witness :
    JoinIntSlice [1, -20, 0] "," = joinWithSep ([1, -20, 0].map Itoa) "," :=
  JoinIntSlice_spec.2.1 [1, -20, 0] "," (by decide)

/-- C16: with a nil error `FatalIf` returns to its caller and prints nothing; with an error
it writes the stack trace and the message `Fatal error: <err>` and the process exits with
status `-1`, which is not zero (255 as seen by the parent on Unix), so that no statement of
the caller runs after it. -/
theorem FatalIf_outcome (stack : String) (p : Proc) :
    FatalIf stack none p = Outcome.returned p ∧
    (∀ msg : String,
      FatalIf stack (some msg) p =
        Outcome.exited ⟨p.stdout ++ ["Fatal error: " ++ msg ++ "\n"], p.stderr ++ [stack]⟩ (-1) ∧
      ((-1 : Int) ≠ 0 ∧ (-1 : Int) % 256 ≠ 0) ∧
      ∀ k : Proc → Outcome,
        (FatalIf stack (some msg) p).andThen k = FatalIf stack (some msg) p) := by
  refine ⟨rfl, fun msg => ⟨rfl, by decide, fun k => rfl⟩⟩

/-- C17: with the parser as a given partial function, `ExtractClusterFromHost(host)` returns
an error exactly when parsing fails, then together with the empty string; when parsing
succeeds with host `h` it returns no error and `h` without one leading `"kubernetes."` if
`h` starts with it, and `h` itself otherwise. -/
theorem ExtractClusterFromHost_spec (parse : String → Except String String) (host : String) :
    ((ExtractClusterFromHost parse host).2 ≠ none ↔ ∃ err, parse host = Except.error err) ∧
    (∀ err, parse host = Except.error err →
      ExtractClusterFromHost parse host = ("", some err)) ∧
    (∀ h, parse host = Except.ok h →
      (ExtractClusterFromHost parse host).2 = none ∧
      (∀ rest : String, h = "kubernetes." ++ rest →
        (ExtractClusterFromHost parse host).1 = rest) ∧
      (¬ "kubernetes.".data <+: h.data → (ExtractClusterFromHost parse host).1 = h)) := by
  refine ⟨?_, ?_, ?_⟩
  · cases hp : parse host <;> simp [ExtractClusterFromHost, hp]
  · intro err hp
    simp [ExtractClusterFromHost, hp]
  · intro h hp
    refine ⟨by simp [ExtractClusterFromHost, hp], ?_, ?_⟩
    · intro rest hr
      subst hr
      simp [ExtractClusterFromHost, hp, TrimPrefix, HasPrefix, String.data_append]
    · intro hn
      have : HasPrefix h "kubernetes." = false := by
        rw [HasPrefix, Bool.eq_false_iff]
        intro hp2
        exact hn (List.isPrefixOf_iff_prefix.1 hp2)
      simp [ExtractClusterFromHost, hp, TrimPrefix, this]

/-- C17: witness, the host `kubernetes.kubernetes.x` loses one leading `kubernetes.` only. -/
theorem ExtractClusterFromHost_spec_witness :
    (ExtractClusterFromHost (fun _ => Except.ok "kubernetes.kubernetes.x") "u").1 =
      "kubernetes.x" :=
  ((ExtractClusterFromHost_spec (fun _ => Except.ok "kubernetes.kubernetes.x") "u").2.2
    "kubernetes.kubernetes.x" rfl).2.1 "kubernetes.x" (by decide)

/-- C18: `StringMapsEqual` is not symmetric on `a = {a: ""}`, `b = {b: "x"}`: it is true for
`(a, b)` and false for `(b, a)`. -/
theorem StringMapsEqual_asymmetric :
    StringMapsEqual mapAEmpty mapBX = true ∧ StringMapsEqual mapBX mapAEmpty = false := by
  decide

/-- C19: when no value stored in `a` is the empty string, `StringMapsEqual(a, b)` is true
exactly when `a` and `b` have the same keys and every key has the same value in both. -/
theorem StringMapsEqual_iff_of_no_empty (a b : GoMap) (ha : ∀ e ∈ a.entries, e.2 ≠ "") :
    StringMapsEqual a b = true ↔ a.sameBindings b := by
  rw [StringMapsEqual_iff_loop]
  constructor
  · rintro ⟨hlen, hidx⟩
    have hsub : a.keys ⊆ b.keys := by
      intro k hk
      apply b.mem_keys_of_index_ne
      rw [← hidx k hk]
      exact (a.index_ne_of_mem ha k hk).1
    have hperm : a.keys.Perm b.keys :=
      (List.subperm_of_subset a.nodup hsub).perm_of_length_le
        (by
          show b.keys.length ≤ a.keys.length
          rw [GoMap.length_keys, GoMap.length_keys, hlen])
    intro k
    by_cases hk : k ∈ a.keys
    · obtain ⟨hne, hget⟩ := a.index_ne_of_mem ha k hk
      rw [hget]
      have hb : b.index k ≠ "" := by rw [← hidx k hk]; exact hne
      cases hbg : b.get? k with
      | none => simp [GoMap.index, hbg] at hb
      | some v =>
        have : b.index k = v := by simp [GoMap.index, hbg]
        rw [hidx k hk, this]
    · have hkb : k ∉ b.keys := fun h => hk (hperm.mem_iff.2 h)
      rw [(a.get?_eq_none_iff k).2 hk, (b.get?_eq_none_iff k).2 hkb]
  · intro h
    have hmem : ∀ k, k ∈ a.keys ↔ k ∈ b.keys := by
      intro k
      have h1 := a.get?_eq_none_iff k
      have h2 := b.get?_eq_none_iff k
      rw [h k] at h1
      exact not_iff_not.1 (h1.symm.trans h2)
    have hperm : a.keys.Perm b.keys :=
      (List.perm_ext_iff_of_nodup a.nodup b.nodup).2 hmem
    refine ⟨?_, ?_⟩
    · rw [← GoMap.length_keys, ← GoMap.length_keys]
      exact hperm.length_eq
    · intro k _
      simp [GoMap.index, h k]

/-- C19: witness, the map `{b: "x"}` against itself. -/
theorem StringMapsEqual_iff_of_no_empty_witness :
    StringMapsEqual mapBX mapBX = true ↔ mapBX.sameBindings mapBX :=
  StringMapsEqual_iff_of_no_empty mapBX mapBX (by decide)

/-- C20, as stated, fails: on the one-element slice `["a"]` with `max = -1` the slice
expression `sl[:max]` is out of range and the call panics. -/
theorem JoinSlicesWithMaxOrNone_negative_max :
    ¬ (∀ (sl : Slice) (max : Int) (sep : String),
      ∃ s, (JoinSlicesWithMaxOrNone sl max sep).ret = some s) := by
  intro h
  obtain ⟨s, hs⟩ := h onlyA (-1) ","
  have hnone : (JoinSlicesWithMaxOrNone onlyA (-1) ",").ret = none := by decide
  rw [hnone] at hs
  cases hs

/-- C20, amended: for every sequence `sl`, every separator and every `max` that is not
negative, and for every `max` at all when `sl` is empty, `JoinSlicesWithMaxOrNone` returns
a string: the prefix `sl[:max]` it takes is within range. -/
theorem JoinSlicesWithMaxOrNone_returns (sl : Slice) (max : Int) (sep : String)
    (h : sl.len = 0 ∨ 0 ≤ max) : ∃ s, (JoinSlicesWithMaxOrNone sl max sep).ret = some s :=
  JoinSlicesWithMaxOrNone_returns_aux sl max sep h

/-- C20, amended: witness, `["a"]` with `max = 0`. -/
theorem JoinSlicesWithMaxOrNone_returns_witness :
    ∃ s, (JoinSlicesWithMaxOrNone onlyA 0 ",").ret = some s :=
  JoinSlicesWithMaxOrNone_returns onlyA 0 "," (Or.inr (by decide))

end Util
